import Mathlib

/-!
# Verification of the graphlet hashing core (`RNAGlib/utils/graphlet_hash.py`)

Shallow embedding of the graphlet-hash pipeline:

* labelled graphs (networkx graphs with one node attribute and one edge
  attribute, the `'LW'` label);
* the symmetric-edge label canonicalization performed inside `Hasher.hash`;
* the Weisfeiler-Lehman graph hash (`networkx.algorithms.graph_hashing.
  weisfeiler_lehman_graph_hash`, the function `Hasher.hash` delegates to),
  called as in the source with `edge_attr` set and no `node_attr`;
* graphlet extraction (`extract_graphlet`), hash-table construction
  (`build_hash_table`) and the GED collision resolver
  (`GED_hashtable_hashed`).

External primitives (the `blake2b` string digest and `np.exp`) are modelled
as explicit function parameters: every theorem below holds for an arbitrary
digest function, hence in particular for `blake2b`, and the claims about
`np.exp` are stated and proved with the real exponential `Real.exp`.
-/

/-- A labelled graph as used by `graphlet_hash.py`: a node list (networkx
keeps nodes in insertion order; node identities are abstracted to `Nat`),
a node-attribute map and an adjacency map giving the `'LW'` edge label of
the edge `u → v` when present (`G[u][v][label]` in the source; for
undirected networkx graphs the map is symmetric). -/
@[ext]
structure Graph where
  nodes : List Nat
  nodeLabel : Nat → String
  edgeLabel : Nat → Nat → Option String

/-- The graph with no nodes and no edges. -/
def Graph.empty : Graph := ⟨[], fun _ => "", fun _ _ => none⟩

/-- Sorting a list of characters, Python's `sorted` on the characters of a
string. -/
def sortChars (l : List Char) : List Char := List.insertionSort (· ≤ ·) l

/-- Sorting a list of strings, Python's `sorted` on a list of strings. -/
def sortStrings (l : List String) : List String := List.insertionSort (· ≤ ·) l

/-- The edge-label canonicalization performed by the `symmetric_edges` loop
of `Hasher.hash` (graphlet_hash.py lines 80-85) on one label: `'B53'` is
exempt, any other label is rewritten to
`label[0] + "".join(sorted(label[1:]))`.  (On the empty string the Python
slice `label[0]` would raise; every label in the system's vocabulary is
nonempty, and we return the string unchanged there.) -/
def canonicalize (l : String) : String :=
  if l = "B53" then l
  else
    match l.data with
    | [] => l
    | c :: rest => ⟨c :: sortChars rest⟩

/-- The effect of the whole `symmetric_edges` rewriting loop of
`Hasher.hash`: every present edge label is canonicalized in place. -/
def canonicalize_edges (G : Graph) : Graph :=
  { G with edgeLabel := fun u v => (G.edgeLabel u v).map canonicalize }

/-- Neighbors of `n`: the nodes `m` with an edge `n → m`
(`G.neighbors(node)` in networkx). -/
def neighbors (G : Graph) (n : Nat) : List Nat :=
  G.nodes.filter (fun m => (G.edgeLabel n m).isSome)

/-- The edge-label string `G[u][v][edge_attr]` used as a prefix in the WL
neighborhood aggregation; only evaluated on actual edges. -/
def edgeStr (G : Graph) (u v : Nat) : String :=
  (G.edgeLabel u v).getD ""

/-- `_neighborhood_aggregate` of networkx's WL hash with `edge_attr` set:
the node's current label followed by the sorted list of
`edge_label + neighbor_label` strings, joined. -/
def neighborhoodAggregate (G : Graph) (labels : Nat → String) (n : Nat) : String :=
  labels n ++ String.join (sortStrings ((neighbors G n).map (fun m => edgeStr G n m ++ labels m)))

/-- One `weisfeiler_lehman_step`: every node's label becomes the digest
(`_hash_label`, i.e. `blake2b`, modelled by the parameter `f`) of its
aggregated neighborhood string. -/
def wlStep (f : String → String) (G : Graph) (labels : Nat → String) : Nat → String :=
  fun n => f (neighborhoodAggregate G labels n)

/-- Node labels after `k` WL steps.  The source calls the hash with
`edge_attr='LW'` and no `node_attr`, so `_init_node_labels` initializes
every node's label to the empty string — node attributes are never read. -/
def wlLabels (f : String → String) (G : Graph) : Nat → Nat → String
  | 0 => fun _ => ""
  | k + 1 => wlStep f G (wlLabels f G k)

/-- `sorted(Counter(xs).items())`: the distinct strings of `xs` in
ascending order, each with its multiplicity. -/
def counterItems (xs : List String) : List (String × Nat) :=
  (sortStrings xs).dedup.map (fun s => (s, xs.count s))

/-- The sorted counter of node labels after iteration `k+1`
(`Counter(node_labels.values())` of the `k`-th loop body). -/
def iterationItems (f : String → String) (G : Graph) (k : Nat) : List (String × Nat) :=
  counterItems (G.nodes.map (wlLabels f G (k + 1)))

/-- Python's `repr` of a string (quotes; label strings here never need
escaping). -/
def pyReprStr (s : String) : String := "'" ++ s ++ "'"

/-- Python's `str` of a `(label, count)` tuple. -/
def pyReprPair (p : String × Nat) : String :=
  "(" ++ pyReprStr p.1 ++ ", " ++ toString p.2 ++ ")"

/-- Python's `str(tuple(items))` applied to the accumulated counter items
(trailing comma for a 1-tuple, `()` for the empty tuple). -/
def pyStrItems : List (String × Nat) → String
  | [] => "()"
  | [p] => "(" ++ pyReprPair p ++ ",)"
  | ps => "(" ++ String.intercalate ", " (ps.map pyReprPair) ++ ")"

/-- `weisfeiler_lehman_graph_hash(G, edge_attr=label, iterations=it)` with
the `blake2b` digest abstracted as `f`: run `it` WL steps, collect the
sorted per-iteration label counters, and digest their Python string
representation. -/
def weisfeiler_lehman_graph_hash (f : String → String) (G : Graph) (iterations : Nat) : String :=
  f (pyStrItems ((List.range iterations).flatMap (iterationItems f G)))

/-- The `Hasher` configuration (graphlet_hash.py lines 46-62); only the
fields the hash function reads are modelled (`method` is always `'WL'`,
`label` selects the single edge attribute of our graph model, and the
digest sizes are folded into the abstract digest function). -/
structure Hasher where
  symmetric_edges : Bool := true
  wl_hops : Nat := 2

/-- `Hasher.hash` (lines 64-86): canonicalize the edge labels in
`symmetric_edges` mode, then take the WL hash with `iterations=wl_hops`. -/
def Hasher.hash (hasher : Hasher) (f : String → String) (G : Graph) : String :=
  weisfeiler_lehman_graph_hash f
    (if hasher.symmetric_edges then canonicalize_edges G else G) hasher.wl_hops

/-- Canonicalizing one label twice is the same as canonicalizing it once. -/
theorem canonicalize_idem (l : String) : canonicalize (canonicalize l) = canonicalize l := by
  by_cases hB : l = "B53"
  · simp [canonicalize, hB]
  · rcases h : l.data with _ | ⟨c, rest⟩
    · have hl : canonicalize l = l := by
        simp only [canonicalize, hB, if_false, h]
      rw [hl, hl]
    · have hl : canonicalize l = ⟨c :: sortChars rest⟩ := by
        simp only [canonicalize, hB, if_false, h]
      rw [hl]
      by_cases hr : (⟨c :: sortChars rest⟩ : String) = "B53"
      · simp [canonicalize, hr]
      · have : (⟨c :: sortChars rest⟩ : String).data = c :: sortChars rest := rfl
        simp only [canonicalize, hr, if_false, this]
        have hs : sortChars (sortChars rest) = sortChars rest :=
          List.Sorted.insertionSort_eq (List.sorted_insertionSort _ rest)
        rw [hs]

/-- C6: edge-label canonicalization is idempotent, both on a single label
string (with `'B53'` exempt and unchanged) and as the whole
symmetric-edges rewriting pass of `Hasher.hash` on a graph. -/
theorem C6_canonicalization_idempotent :
    (∀ l : String, canonicalize (canonicalize l) = canonicalize l) ∧
    (∀ G : Graph, canonicalize_edges (canonicalize_edges G) = canonicalize_edges G) := by
  refine ⟨canonicalize_idem, fun G => ?_⟩
  refine Graph.ext rfl rfl ?_
  funext u v
  show ((G.edgeLabel u v).map canonicalize).map canonicalize = (G.edgeLabel u v).map canonicalize
  cases G.edgeLabel u v with
  | none => rfl
  | some a => simp [Option.map, canonicalize_idem]

/-- Sorting is invariant under permutation of the input. -/
theorem sortStrings_perm_congr {l₁ l₂ : List String} (h : l₁.Perm l₂) :
    sortStrings l₁ = sortStrings l₂ :=
  List.eq_of_perm_of_sorted
    ((List.perm_insertionSort _ l₁).trans (h.trans (List.perm_insertionSort _ l₂).symm))
    (List.sorted_insertionSort _ _) (List.sorted_insertionSort _ _)

/-- The sorted counter items depend only on the multiset of strings. -/
theorem counterItems_perm_congr {xs ys : List String} (h : xs.Perm ys) :
    counterItems xs = counterItems ys := by
  unfold counterItems
  rw [sortStrings_perm_congr h]
  exact List.map_congr_left (fun s _ => by rw [h.count_eq])

/-- Under a label-preserving bijection `φ`, the neighbor list of `φ n` in
`H` is a permutation of the image under `φ` of the neighbor list of `n`
in `G`. -/
theorem neighbors_iso (G H : Graph) (φ : Nat → Nat)
    (hbij : (G.nodes.map φ).Perm H.nodes)
    (hedge : ∀ u ∈ G.nodes, ∀ v ∈ G.nodes, H.edgeLabel (φ u) (φ v) = G.edgeLabel u v)
    (n : Nat) (hn : n ∈ G.nodes) :
    (neighbors H (φ n)).Perm ((neighbors G n).map φ) := by
  unfold neighbors
  have e1 : (G.nodes.map φ).filter (fun m => (H.edgeLabel (φ n) m).isSome)
      = (G.nodes.filter (fun m => (G.edgeLabel n m).isSome)).map φ := by
    rw [List.filter_map]
    refine congrArg _ (List.filter_congr ?_)
    intro m hm
    show (H.edgeLabel (φ n) (φ m)).isSome = (G.edgeLabel n m).isSome
    rw [hedge n hn m hm]
  exact (hbij.symm.filter _).trans (e1 ▸ List.Perm.refl _)

/-- Key invariance lemma: the WL refinement labels of corresponding nodes
agree at every iteration.  (Node attributes do not appear: the source
calls the WL hash without `node_attr`, so iteration 0 starts from the
empty string on every node.) -/
theorem wlLabels_iso (f : String → String) (G H : Graph) (φ : Nat → Nat)
    (hbij : (G.nodes.map φ).Perm H.nodes)
    (hedge : ∀ u ∈ G.nodes, ∀ v ∈ G.nodes, H.edgeLabel (φ u) (φ v) = G.edgeLabel u v) :
    ∀ k, ∀ n ∈ G.nodes, wlLabels f H k (φ n) = wlLabels f G k n := by
  intro k
  induction k with
  | zero => intro n _; rfl
  | succ k ih =>
    intro n hn
    show f (neighborhoodAggregate H (wlLabels f H k) (φ n))
        = f (neighborhoodAggregate G (wlLabels f G k) n)
    refine congrArg f ?_
    unfold neighborhoodAggregate
    have hperm : ((neighbors H (φ n)).map
          (fun m => edgeStr H (φ n) m ++ wlLabels f H k m)).Perm
        ((neighbors G n).map (fun m => edgeStr G n m ++ wlLabels f G k m)) := by
      have h2 := (neighbors_iso G H φ hbij hedge n hn).map
        (fun m => edgeStr H (φ n) m ++ wlLabels f H k m)
      rw [List.map_map] at h2
      have h3 : (neighbors G n).map
            ((fun m => edgeStr H (φ n) m ++ wlLabels f H k m) ∘ φ)
          = (neighbors G n).map (fun m => edgeStr G n m ++ wlLabels f G k m) := by
        refine List.map_congr_left ?_
        intro m hm
        have hm' : m ∈ G.nodes := (List.mem_filter.1 hm).1
        show edgeStr H (φ n) (φ m) ++ wlLabels f H k (φ m)
            = edgeStr G n m ++ wlLabels f G k m
        rw [ih m hm']
        unfold edgeStr
        rw [hedge n hn m hm']
      exact h2.trans (h3 ▸ List.Perm.refl _)
    rw [ih n hn, sortStrings_perm_congr hperm]

/-- The per-iteration sorted label counters agree for isomorphic graphs. -/
theorem iterationItems_iso (f : String → String) (G H : Graph) (φ : Nat → Nat)
    (hbij : (G.nodes.map φ).Perm H.nodes)
    (hedge : ∀ u ∈ G.nodes, ∀ v ∈ G.nodes, H.edgeLabel (φ u) (φ v) = G.edgeLabel u v)
    (k : Nat) : iterationItems f H k = iterationItems f G k := by
  unfold iterationItems
  refine counterItems_perm_congr ?_
  have h1 := (hbij.symm).map (wlLabels f H (k + 1))
  rw [List.map_map] at h1
  have h2 : G.nodes.map (wlLabels f H (k + 1) ∘ φ)
      = G.nodes.map (wlLabels f G (k + 1)) :=
    List.map_congr_left (fun n hn => wlLabels_iso f G H φ hbij hedge (k + 1) n hn)
  exact h1.trans (h2 ▸ List.Perm.refl _)

/-- WL-hash invariance under label-and-edge preserving bijections, for any
digest function and any iteration count. -/
theorem weisfeiler_lehman_graph_hash_iso (f : String → String) (G H : Graph)
    (φ : Nat → Nat) (iterations : Nat)
    (hbij : (G.nodes.map φ).Perm H.nodes)
    (hedge : ∀ u ∈ G.nodes, ∀ v ∈ G.nodes, H.edgeLabel (φ u) (φ v) = G.edgeLabel u v) :
    weisfeiler_lehman_graph_hash f G iterations
      = weisfeiler_lehman_graph_hash f H iterations := by
  unfold weisfeiler_lehman_graph_hash
  refine congrArg f (congrArg pyStrItems (congrArg _ ?_))
  exact funext (fun k => (iterationItems_iso f G H φ hbij hedge k).symm)

/-- `Hasher.hash` invariance under label-and-edge preserving bijections:
the canonicalization pass preserves the edge-correspondence hypothesis, so
the WL invariance applies to the canonicalized graphs as well. -/
theorem Hasher.hash_iso (hasher : Hasher) (f : String → String) (G H : Graph)
    (φ : Nat → Nat)
    (hbij : (G.nodes.map φ).Perm H.nodes)
    (hedge : ∀ u ∈ G.nodes, ∀ v ∈ G.nodes, H.edgeLabel (φ u) (φ v) = G.edgeLabel u v) :
    hasher.hash f G = hasher.hash f H := by
  unfold Hasher.hash
  cases hs : hasher.symmetric_edges with
  | false =>
    show weisfeiler_lehman_graph_hash f G hasher.wl_hops
        = weisfeiler_lehman_graph_hash f H hasher.wl_hops
    exact weisfeiler_lehman_graph_hash_iso f G H φ _ hbij hedge
  | true =>
    show weisfeiler_lehman_graph_hash f (canonicalize_edges G) hasher.wl_hops
        = weisfeiler_lehman_graph_hash f (canonicalize_edges H) hasher.wl_hops
    refine weisfeiler_lehman_graph_hash_iso f (canonicalize_edges G)
      (canonicalize_edges H) φ _ hbij ?_
    intro u hu v hv
    show ((H.edgeLabel (φ u) (φ v)).map canonicalize)
        = ((G.edgeLabel u v).map canonicalize)
    rw [hedge u hu v hv]

/-- C1: two graphs that are isomorphic under a node bijection preserving
node labels and edge labels, and canonicalized identically (both hashed by
the same `Hasher`), receive the same digest from `Hasher.hash`, for every
iteration count `wl_hops` and every digest function. -/
theorem C1_hash_invariant_under_isomorphism (hasher : Hasher) (f : String → String)
    (G H : Graph) (φ : Nat → Nat)
    (hbij : (G.nodes.map φ).Perm H.nodes)
    (hlab : ∀ n ∈ G.nodes, H.nodeLabel (φ n) = G.nodeLabel n)
    (hedge : ∀ u ∈ G.nodes, ∀ v ∈ G.nodes, H.edgeLabel (φ u) (φ v) = G.edgeLabel u v) :
    hasher.hash f G = hasher.hash f H :=
  Hasher.hash_iso hasher f G H φ hbij hedge

/-- Witness for C1: two concrete 3-node paths (`B53` then `CHW` edges) on
disjoint node keys, related by the bijection `n ↦ n + 10`. -/
theorem C1_witness :
    Hasher.hash {} id
      ⟨[1, 2, 3], fun _ => "A",
        fun u v =>
          if (u = 1 ∧ v = 2) ∨ (u = 2 ∧ v = 1) then some "B53"
          else if (u = 2 ∧ v = 3) ∨ (u = 3 ∧ v = 2) then some "CHW" else none⟩
    = Hasher.hash {} id
      ⟨[13, 11, 12], fun _ => "A",
        fun u v =>
          if (u = 11 ∧ v = 12) ∨ (u = 12 ∧ v = 11) then some "B53"
          else if (u = 12 ∧ v = 13) ∨ (u = 13 ∧ v = 12) then some "CHW" else none⟩ :=
  C1_hash_invariant_under_isomorphism {} id _ _ (fun n => n + 10)
    (by decide) (by decide) (by decide)

/-- One ring of BFS expansion: the frontier together with all neighbors of
frontier nodes (duplicates removed). -/
def expandOnce (G : Graph) (frontier : List Nat) : List Nat :=
  (frontier ++ frontier.flatMap (neighbors G)).dedup

/-- Modelled from the spec: `bfs_expand` is imported from
`utils.graph_utils`, which is not among the provided sources.  Per §4.2 it
performs breadth-first traversal from the roots out to `depth` hops and
returns the visited node set; depth 0 visits only the roots. -/
def bfs_expand (G : Graph) (roots : List Nat) : Nat → List Nat
  | 0 => roots
  | d + 1 => expandOnce G (bfs_expand G roots d)

/-- `G.subgraph(ns)`: the node-induced subgraph — nodes of `G` belonging
to `ns` (in `G`'s node order), node attributes unchanged, and exactly the
edges of `G` with both endpoints in `ns`. -/
def inducedSubgraph (G : Graph) (ns : List Nat) : Graph :=
  ⟨G.nodes.filter (fun m => decide (m ∈ ns)), G.nodeLabel,
    fun u v => if u ∈ ns ∧ v ∈ ns then G.edgeLabel u v else none⟩

/-- `extract_graphlet(G, n, size, label)` (graphlet_hash.py lines 137-140):
`G.subgraph(bfs_expand(G, [n], depth=size, label=label)).copy()`.  The
result is a value of its own (the `.copy()`); the `label` argument selects
the single edge attribute of our graph model. -/
def extract_graphlet (G : Graph) (n : Nat) (size : Nat) : Graph :=
  inducedSubgraph G (bfs_expand G [n] size)

/-- Filtering a duplicate-free list for membership in `[a]` leaves exactly
`[a]` when `a` occurs. -/
theorem filter_mem_singleton {l : List Nat} {a : Nat} (hnd : l.Nodup) (ha : a ∈ l) :
    l.filter (fun m => decide (m ∈ [a])) = [a] := by
  induction l with
  | nil => cases ha
  | cons b t ih =>
    rcases List.nodup_cons.1 hnd with ⟨hb, hnd'⟩
    rcases List.mem_cons.1 ha with hba | hat
    · subst hba
      rw [List.filter_cons_of_pos (by simp)]
      have ht : t.filter (fun m => decide (m ∈ [a])) = [] := by
        refine List.filter_eq_nil_iff.2 ?_
        intro m hm
        simp only [List.mem_singleton, decide_eq_true_eq]
        rintro rfl
        exact hb hm
      rw [ht]
    · have hba : ¬(b ∈ [a]) := by
        simp only [List.mem_singleton]
        rintro rfl
        exact hb hat
      rw [List.filter_cons_of_neg (by simpa using hba)]
      exact ih hnd' hat

/-- The one-node graph every radius-0 graphlet is WL-equivalent to. -/
def singleNodeGraph : Graph := ⟨[0], fun _ => "", fun _ _ => none⟩

/-- C2 (amended): for a graph with duplicate-free node keys and no
self-loop at `n`, `extract_graphlet G n 0` is the one-node, zero-edge
graph on `n`; its `Hasher.hash` digest is one fixed constant — independent
not only of everything outside `n` but also of `n`'s own label attribute,
because the source calls the WL hash with no `node_attr`. -/
theorem C2_radius_zero_graphlet (G : Graph) (n : Nat)
    (hn : n ∈ G.nodes) (hnd : G.nodes.Nodup) (hloop : G.edgeLabel n n = none) :
    (extract_graphlet G n 0).nodes = [n] ∧
    (∀ u v, (extract_graphlet G n 0).edgeLabel u v = none) ∧
    (∀ (hasher : Hasher) (f : String → String),
      hasher.hash f (extract_graphlet G n 0) = hasher.hash f singleNodeGraph) := by
  have hnodes : (extract_graphlet G n 0).nodes = [n] := filter_mem_singleton hnd hn
  have hedges : ∀ u v, (extract_graphlet G n 0).edgeLabel u v = none := by
    intro u v
    show (if u ∈ [n] ∧ v ∈ [n] then G.edgeLabel u v else none) = none
    by_cases h : u ∈ [n] ∧ v ∈ [n]
    · rcases h with ⟨hu, hv⟩
      rw [List.mem_singleton.1 hu, List.mem_singleton.1 hv, if_pos ?_, hloop]
      exact ⟨List.mem_singleton.2 rfl, List.mem_singleton.2 rfl⟩
    · rw [if_neg h]
  refine ⟨hnodes, hedges, fun hasher f => ?_⟩
  refine Hasher.hash_iso hasher f _ singleNodeGraph (fun _ => 0) ?_ ?_
  · rw [hnodes]
    exact List.Perm.refl _
  · intro u _ v _
    rw [hedges u v]
    rfl

/-- Witness for C2: a concrete two-node graph with a backbone edge,
extracted at its node `5`. -/
theorem C2_radius_zero_graphlet_witness :
    (extract_graphlet ⟨[5, 7], fun _ => "A",
        fun u v => if (u = 5 ∧ v = 7) ∨ (u = 7 ∧ v = 5) then some "B53" else none⟩ 5 0).nodes
      = [5] ∧
    (∀ u v, (extract_graphlet ⟨[5, 7], fun _ => "A",
        fun u v => if (u = 5 ∧ v = 7) ∨ (u = 7 ∧ v = 5) then some "B53" else none⟩ 5 0).edgeLabel u v
      = none) ∧
    (∀ (hasher : Hasher) (f : String → String),
      hasher.hash f (extract_graphlet ⟨[5, 7], fun _ => "A",
          fun u v => if (u = 5 ∧ v = 7) ∨ (u = 7 ∧ v = 5) then some "B53" else none⟩ 5 0)
        = hasher.hash f singleNodeGraph) :=
  C2_radius_zero_graphlet _ 5 (by decide) (by decide) (by decide)

/-- Counterexample for C2 as stated: two one-node graphs whose root labels
differ (`"A"` vs `"C"`) receive the same digest from `Hasher.hash` for
every digest function, because the node label never enters the WL
computation. -/
theorem C2_counterexample :
    (Graph.mk [0] (fun _ => "A") (fun _ _ => none)).nodeLabel 0
        ≠ (Graph.mk [0] (fun _ => "C") (fun _ _ => none)).nodeLabel 0 ∧
    (fun f : String → String =>
        Hasher.hash {} f (extract_graphlet (Graph.mk [0] (fun _ => "A") (fun _ _ => none)) 0 0))
      = (fun f : String → String =>
        Hasher.hash {} f (extract_graphlet (Graph.mk [0] (fun _ => "C") (fun _ _ => none)) 0 0)) :=
  ⟨by decide, rfl⟩

/-- Python object semantics for the two mutation-sensitive operations.  A
store is a list of live graph objects; indices are object references.
`extract_graphlet` ends in `.copy()`, so it allocates a fresh object
holding the induced subgraph and leaves every existing object alone. -/
def extract_graphlet_ref (s : List Graph) (r n size : Nat) : List Graph × Nat :=
  match s[r]? with
  | some G => (s ++ [extract_graphlet G n size], s.length)
  | none => (s, r)

/-- `Hasher.hash` as a store operation: in `symmetric_edges` mode the
canonicalization loop mutates the edge labels of the argument object in
place (`G[u][v][self.label] = ...`) before the WL hash is taken. -/
def Hasher.hash_ref (hasher : Hasher) (f : String → String) (s : List Graph) (r : Nat) :
    List Graph × String :=
  match s[r]? with
  | some G =>
    ((if hasher.symmetric_edges then s.set r (canonicalize_edges G) else s), hasher.hash f G)
  | none => (s, "")

/-- C7: extraction returns an independent copy.  Extracting a graphlet
leaves the source graph (and every other live object) unchanged, and the
in-place canonicalization performed when the extracted graphlet is later
hashed also leaves the source graph and every other pre-existing object —
in particular every previously extracted graphlet — unchanged. -/
theorem C7_extract_graphlet_independent_copy (hasher : Hasher) (f : String → String)
    (s : List Graph) (r n size : Nat) (G : Graph) (hr : s[r]? = some G) :
    (extract_graphlet_ref s r n size).1[r]? = some G ∧
    (∀ j, j < s.length → (extract_graphlet_ref s r n size).1[j]? = s[j]?) ∧
    (∀ j, j < s.length →
      (Hasher.hash_ref hasher f (extract_graphlet_ref s r n size).1
          (extract_graphlet_ref s r n size).2).1[j]? = s[j]?) := by
  obtain ⟨hrlen, -⟩ := List.getElem?_eq_some.1 hr
  have hext : extract_graphlet_ref s r n size = (s ++ [extract_graphlet G n size], s.length) := by
    unfold extract_graphlet_ref
    rw [hr]
  have hpre : ∀ j, j < s.length → (s ++ [extract_graphlet G n size])[j]? = s[j]? :=
    fun j hj => List.getElem?_append_left hj
  refine ⟨by rw [hext]; exact (hpre r hrlen).trans hr, fun j hj => by rw [hext]; exact hpre j hj,
    fun j hj => ?_⟩
  rw [hext]
  show (Hasher.hash_ref hasher f (s ++ [extract_graphlet G n size]) s.length).1[j]? = s[j]?
  unfold Hasher.hash_ref
  have hlook : (s ++ [extract_graphlet G n size])[s.length]? = some (extract_graphlet G n size) :=
    List.getElem?_concat_length s _
  rw [hlook]
  show (if hasher.symmetric_edges then
      (s ++ [extract_graphlet G n size]).set s.length (canonicalize_edges (extract_graphlet G n size))
    else (s ++ [extract_graphlet G n size]))[j]? = s[j]?
  cases hasher.symmetric_edges with
  | false =>
    show (s ++ [extract_graphlet G n size])[j]? = s[j]?
    exact hpre j hj
  | true =>
    show ((s ++ [extract_graphlet G n size]).set s.length
        (canonicalize_edges (extract_graphlet G n size)))[j]? = s[j]?
    rw [List.getElem?_set_ne (Nat.ne_of_gt hj)]
    exact hpre j hj

/-- Witness for C7: a one-object store holding the empty graph. -/
theorem C7_witness :
    (extract_graphlet_ref [Graph.empty] 0 0 1).1[0]? = some Graph.empty ∧
    (extract_graphlet_ref [Graph.empty] 0 0 1).1[0]? = [Graph.empty][0]? ∧
    (Hasher.hash_ref {} id (extract_graphlet_ref [Graph.empty] 0 0 1).1
        (extract_graphlet_ref [Graph.empty] 0 0 1).2).1[0]? = [Graph.empty][0]? := by
  have h := C7_extract_graphlet_independent_copy {} id [Graph.empty] 0 0 1 Graph.empty rfl
  exact ⟨h.1, h.2.1 0 (by decide), h.2.2 0 (by decide)⟩

/-- One bucket of the graphlet hash table (`build_hash_table`, lines
176-188): count mode stores a representative graph and an occurrence
counter (`{'graph': n, 'count': c}`), append mode stores the full list of
graphs sharing the digest (`{'graphs': [...]}`). -/
inductive Bucket where
  | cnt (graph : Graph) (count : Nat)
  | app (graphs : List Graph)

/-- The occupancy of a bucket: its counter in count mode, the length of
its graph list in append mode. -/
def Bucket.size : Bucket → Nat
  | .cnt _ c => c
  | .app gs => gs.length

/-- A hash table: digest → bucket.  (Function view of the Python dict.) -/
def Table : Type := String → Option Bucket

/-- The table before any graphlet is processed. -/
def emptyTable : Table := fun _ => none

/-- Inserting one graphlet into the bucket for its digest, following the
source: a fresh bucket in the shape of the chosen mode if the digest is
new, otherwise append to `'graphs'` / increment `'count'`.  (A bucket
whose shape contradicts the mode cannot arise when a table is built with
one fixed mode — there the Python would raise `KeyError`; on such
buckets we follow the bucket's own shape.) -/
def bucketInsert (append : Bool) (g : Graph) : Option Bucket → Bucket
  | none => if append then .app [g] else .cnt g 1
  | some (.app gs) => .app (gs ++ [g])
  | some (.cnt g0 c) => .cnt g0 (c + 1)

/-- The table after processing one graphlet (the body of the inner loop of
`build_hash_table`). -/
def tableInsert (digest : Graph → String) (append : Bool) (t : Table) (g : Graph) : Table :=
  fun h => if h = digest g then some (bucketInsert append g (t (digest g))) else t h

/-- The graphlets extracted from one graph: one per node (the list `todo`
in `build_hash_table` when `graphlets=True`). -/
def graphlets_of (G : Graph) (size : Nat) : List Graph :=
  G.nodes.map (fun n => extract_graphlet G n size)

/-- `build_hash_table(graph_dir, hasher, ...)` (lines 142-189) with the
directory already loaded into a list of graphs (`load_json` is external
I/O), the hasher's digest map abstracted as `digest`, `graphlets=True`,
`max_graphs=0` (no truncation) and `directed` folded into the graphs
themselves: for every graph, for every node, extract the graphlet and
insert its digest into the table. -/
def build_hash_table (digest : Graph → String) (append : Bool) (size : Nat)
    (corpus : List Graph) : Table :=
  corpus.foldl (fun t G => (graphlets_of G size).foldl (tableInsert digest append) t) emptyTable

/-- All graphlets the corpus pass processes, in processing order. -/
def allGraphlets (corpus : List Graph) (size : Nat) : List Graph :=
  corpus.flatMap (fun G => graphlets_of G size)

/-- The occupancy the table records for digest `h` (0 when no bucket). -/
def sizeAt (t : Table) (h : String) : Nat :=
  match t h with
  | none => 0
  | some b => b.size

/-- Folding over list-of-lists is folding over the flattened list. -/
theorem foldl_flatMap {α β γ : Type} (f : β → α → β) (g : γ → List α) :
    ∀ (l : List γ) (b : β),
      (l.flatMap g).foldl f b = l.foldl (fun b c => (g c).foldl f b) b := by
  intro l
  induction l with
  | nil => intro b; rfl
  | cons c l ih =>
    intro b
    rw [List.flatMap_cons, List.foldl_append, List.foldl_cons, ih]

/-- Each insertion adds exactly one to the occupancy of its own digest and
leaves every other digest's occupancy unchanged. -/
theorem sizeAt_tableInsert (digest : Graph → String) (append : Bool) (t : Table)
    (g : Graph) (h : String) :
    sizeAt (tableInsert digest append t g) h
      = sizeAt t h + (if digest g = h then 1 else 0) := by
  unfold sizeAt tableInsert
  by_cases hd : digest g = h
  · rw [if_pos hd, if_pos hd.symm, ← hd]
    cases ht : t (digest g) with
    | none =>
      show (bucketInsert append g none).size = 0 + 1
      cases append with
      | false => rfl
      | true => rfl
    | some b =>
      cases b with
      | cnt g0 c => rfl
      | app gs => show (gs ++ [g]).length = gs.length + 1; rw [List.length_append]; rfl
  · rw [if_neg hd, if_neg (fun hh => hd hh.symm), Nat.add_zero]

/-- After a run of insertions the occupancy of `h` has grown by the number
of processed graphlets whose digest is `h`. -/
theorem sizeAt_foldl_tableInsert (digest : Graph → String) (append : Bool) (h : String) :
    ∀ (ws : List Graph) (t : Table),
      sizeAt (ws.foldl (tableInsert digest append) t) h
        = sizeAt t h + ws.countP (fun g => decide (digest g = h)) := by
  intro ws
  induction ws with
  | nil => intro t; rfl
  | cons g ws ih =>
    intro t
    rw [List.foldl_cons, ih, sizeAt_tableInsert, List.countP_cons]
    simp only [decide_eq_true_eq]
    omega

/-- A bucket exists after a run of insertions iff it existed before or
some processed graphlet has that digest. -/
theorem exists_foldl_tableInsert (digest : Graph → String) (append : Bool) (h : String) :
    ∀ (ws : List Graph) (t : Table),
      (ws.foldl (tableInsert digest append) t) h = none
        ↔ t h = none ∧ ws.countP (fun g => decide (digest g = h)) = 0 := by
  intro ws
  induction ws with
  | nil => intro t; simp [List.countP_nil]
  | cons g ws ih =>
    intro t
    rw [List.foldl_cons, ih, List.countP_cons]
    unfold tableInsert
    by_cases hd : digest g = h
    · simp [hd]
    · simp only [decide_eq_true_eq, hd, if_neg (fun hh : h = digest g => hd hh.symm)]
      simp

/-- The bucket shape each mode produces: `cnt` buckets in count mode,
`app` buckets in append mode. -/
def modeShape (append : Bool) : Bucket → Prop
  | .cnt _ _ => append = false
  | .app _ => append = true

/-- A run of insertions with a fixed mode preserves the mode's bucket
shape throughout the table. -/
theorem shape_foldl_tableInsert (digest : Graph → String) (append : Bool) :
    ∀ (ws : List Graph) (t : Table),
      (∀ h b, t h = some b → modeShape append b) →
      ∀ h b, (ws.foldl (tableInsert digest append) t) h = some b → modeShape append b := by
  intro ws
  induction ws with
  | nil => intro t ht; exact ht
  | cons g ws ih =>
    intro t ht
    refine ih _ ?_
    intro h b hb
    unfold tableInsert at hb
    by_cases hd : h = digest g
    · rw [if_pos hd] at hb
      cases hb' : t (digest g) with
      | none =>
        rw [hb'] at hb
        cases append with
        | false => cases hb; rfl
        | true => cases hb; rfl
      | some b0 =>
        rw [hb'] at hb
        have hsh := ht _ _ hb'
        cases b0 with
        | cnt g0 c => cases hb; exact hsh
        | app gs => cases hb; exact hsh
    · rw [if_neg hd] at hb
      exact ht _ _ hb

/-- `build_hash_table` is an insertion run over the flattened graphlet
sequence. -/
theorem build_hash_table_eq_foldl (digest : Graph → String) (append : Bool) (size : Nat)
    (corpus : List Graph) :
    build_hash_table digest append size corpus
      = (allGraphlets corpus size).foldl (tableInsert digest append) emptyTable := by
  unfold build_hash_table allGraphlets
  rw [foldl_flatMap]

/-- C3: after the corpus pass has processed `N` graphlets whose digest is
`h`, the count-mode bucket for `h` satisfies `count = N` and the
append-mode bucket satisfies `len(graphs) = N`; a bucket for `h` exists
iff at least one processed graphlet has digest `h`; and along any
insertion run the occupancy recorded for a digest never decreases as more
graphlets are processed. -/
theorem C3_table_accumulation (digest : Graph → String) (size : Nat)
    (corpus : List Graph) (h : String) :
    (∀ b, build_hash_table digest false size corpus h = some b →
      ∃ g, b = .cnt g ((allGraphlets corpus size).countP (fun g => decide (digest g = h)))) ∧
    (∀ b, build_hash_table digest true size corpus h = some b →
      ∃ gs, b = .app gs ∧
        gs.length = (allGraphlets corpus size).countP (fun g => decide (digest g = h))) ∧
    (∀ append : Bool,
      (build_hash_table digest append size corpus h).isSome
        ↔ 0 < (allGraphlets corpus size).countP (fun g => decide (digest g = h))) ∧
    (∀ (append : Bool) (ws extra : List Graph),
      sizeAt (ws.foldl (tableInsert digest append) emptyTable) h
        ≤ sizeAt ((ws ++ extra).foldl (tableInsert digest append) emptyTable) h) := by
  have hsize : ∀ append : Bool,
      sizeAt (build_hash_table digest append size corpus) h
        = (allGraphlets corpus size).countP (fun g => decide (digest g = h)) := by
    intro append
    rw [build_hash_table_eq_foldl, sizeAt_foldl_tableInsert]
    simp [sizeAt, emptyTable]
  have hshape : ∀ append : Bool, ∀ b,
      build_hash_table digest append size corpus h = some b → modeShape append b := by
    intro append b hb
    rw [build_hash_table_eq_foldl] at hb
    exact shape_foldl_tableInsert digest append _ emptyTable (fun _ _ hx => by cases hx) h b hb
  refine ⟨?_, ?_, ?_, ?_⟩
  · intro b hb
    have hs := hshape false b hb
    cases b with
    | app gs => cases hs
    | cnt g c =>
      refine ⟨g, ?_⟩
      have := hsize false
      unfold sizeAt at this
      rw [hb] at this
      have hc : c = (allGraphlets corpus size).countP (fun g => decide (digest g = h)) := this
      rw [hc]
  · intro b hb
    have hs := hshape true b hb
    cases b with
    | cnt g c => cases hs
    | app gs =>
      refine ⟨gs, rfl, ?_⟩
      have := hsize true
      unfold sizeAt at this
      rw [hb] at this
      exact this
  · intro append
    rw [build_hash_table_eq_foldl]
    rw [Option.isSome_iff_ne_none]
    constructor
    · intro hne
      by_contra hzero
      have h0 : (allGraphlets corpus size).countP (fun g => decide (digest g = h)) = 0 := by
        omega
      exact hne ((exists_foldl_tableInsert digest append h _ emptyTable).2 ⟨rfl, h0⟩)
    · intro hpos hnone
      have := ((exists_foldl_tableInsert digest append h _ emptyTable).1 hnone).2
      omega
  · intro append ws extra
    rw [List.foldl_append, sizeAt_foldl_tableInsert digest append h extra]
    exact Nat.le_add_right _ _

/-- The error a corpus pass can hit while handling one graphlet
(§7 of the spec: a node or edge lacking the required label attribute
raises inside the hasher, e.g. a `KeyError` on `G[u][v][self.label]`). -/
inductive GraphError where
  | malformedGraph

/-- Hashing one graphlet with a digest map that may raise (the loop body
`h = hasher.hash(n)` followed by the table update; `build_hash_table` has
no exception handler, so an error propagates). -/
def tableInsertE (digestE : Graph → Except GraphError String) (append : Bool)
    (t : Table) (g : Graph) : Except GraphError Table :=
  match digestE g with
  | .error e => .error e
  | .ok h => .ok (fun h' => if h' = h then some (bucketInsert append g (t h)) else t h')

/-- Processing one corpus graph: hash and insert each of its graphlets,
propagating the first error. -/
def add_graph_E (digestE : Graph → Except GraphError String) (append : Bool) (size : Nat)
    (t : Table) (G : Graph) : Except GraphError Table :=
  (graphlets_of G size).foldlM (tableInsertE digestE append) t

/-- `build_hash_table` with a fallible hasher: the corpus pass aborts at
the first failing graph (the source has no try/except, so the exception
leaves `build_hash_table` and the local `hash_table` is discarded). -/
def build_hash_table_E (digestE : Graph → Except GraphError String) (append : Bool)
    (size : Nat) (corpus : List Graph) : Except GraphError Table :=
  corpus.foldlM (add_graph_E digestE append size) emptyTable

/-- When the digest map succeeds on every graphlet of a run, the fallible
insertion run returns exactly the pure one. -/
theorem foldlM_tableInsertE_ok (digestE : Graph → Except GraphError String)
    (digest : Graph → String) (append : Bool) :
    ∀ (ws : List Graph) (t : Table),
      (∀ g ∈ ws, digestE g = .ok (digest g)) →
      ws.foldlM (tableInsertE digestE append) t
        = .ok (ws.foldl (tableInsert digest append) t) := by
  intro ws
  induction ws with
  | nil => intro t _; rfl
  | cons g ws ih =>
    intro t hok
    rw [List.foldlM_cons]
    have hg : tableInsertE digestE append t g = .ok (tableInsert digest append t g) := by
      unfold tableInsertE tableInsert
      rw [hok g (List.mem_cons_self g ws)]
    rw [hg]
    show ws.foldlM (tableInsertE digestE append) (tableInsert digest append t g)
      = .ok (ws.foldl (tableInsert digest append) (tableInsert digest append t g))
    exact ih _ (fun g' hg' => hok g' (List.mem_cons_of_mem g hg'))

/-- When the digest map succeeds on every graphlet of the corpus, the
fallible corpus pass returns exactly the pure table. -/
theorem build_hash_table_E_ok (digestE : Graph → Except GraphError String)
    (digest : Graph → String) (append : Bool) (size : Nat) :
    ∀ (corpus : List Graph) (t : Table),
      (∀ g ∈ allGraphlets corpus size, digestE g = .ok (digest g)) →
      corpus.foldlM (add_graph_E digestE append size) t
        = .ok (corpus.foldl (fun t G => (graphlets_of G size).foldl (tableInsert digest append) t) t) := by
  intro corpus
  induction corpus with
  | nil => intro t _; rfl
  | cons G corpus ih =>
    intro t hok
    rw [List.foldlM_cons, List.foldl_cons]
    have hG : add_graph_E digestE append size t G
        = .ok ((graphlets_of G size).foldl (tableInsert digest append) t) := by
      refine foldlM_tableInsertE_ok digestE digest append _ t ?_
      intro g hg
      exact hok g (List.mem_flatMap.2 ⟨G, List.mem_cons_self G corpus, hg⟩)
    rw [hG]
    show corpus.foldlM (add_graph_E digestE append size) _ = _
    refine ih _ ?_
    intro g hg
    rcases List.mem_flatMap.1 hg with ⟨G', hG', hg'⟩
    exact hok g (List.mem_flatMap.2 ⟨G', List.mem_cons_of_mem G hG', hg'⟩)

/-- C8: a failure while processing one corpus graph makes the whole pass
fail fast — the exception propagates, no table is returned, so no partial
state from the failed graph is ever observable — while the
state accumulated just before the failure is exactly the correct pure
table of the earlier graphs (whose buckets therefore hold their correct
counts, by `C3_table_accumulation`). -/
theorem C8_fail_fast_preserves_prefix (digestE : Graph → Except GraphError String)
    (digest : Graph → String) (append : Bool) (size : Nat)
    (good : List Graph) (bad : Graph) (rest : List Graph) (e : GraphError)
    (hgood : ∀ g ∈ allGraphlets good size, digestE g = .ok (digest g))
    (hbad : add_graph_E digestE append size (build_hash_table digest append size good) bad
      = .error e) :
    build_hash_table_E digestE append size (good ++ bad :: rest) = .error e ∧
    build_hash_table_E digestE append size good
      = .ok (build_hash_table digest append size good) := by
  have hpre : build_hash_table_E digestE append size good
      = .ok (build_hash_table digest append size good) :=
    build_hash_table_E_ok digestE digest append size good emptyTable hgood
  refine ⟨?_, hpre⟩
  unfold build_hash_table_E
  rw [List.foldlM_append]
  unfold build_hash_table_E at hpre
  rw [hpre]
  show (bad :: rest).foldlM (add_graph_E digestE append size)
      (build_hash_table digest append size good) = .error e
  rw [List.foldlM_cons, hbad]
  rfl

/-- Witness for C8: the empty prefix and a one-node graph on which the
hasher raises. -/
theorem C8_witness :
    build_hash_table_E (fun _ => .error .malformedGraph) false 1 ([] ++ singleNodeGraph :: [])
      = .error .malformedGraph ∧
    build_hash_table_E (fun _ => .error .malformedGraph) false 1 []
      = .ok (build_hash_table (fun _ => "") false 1 []) :=
  C8_fail_fast_preserves_prefix (fun _ => .error .malformedGraph) (fun _ => "") false 1
    [] singleNodeGraph [] .malformedGraph (fun g hg => absurd hg (List.not_mem_nil g)) rfl

/-- Failures of the external distance oracle (§7: timeout vs other
computational failure; `ged(G, H, timeout=...)` may raise either). -/
inductive GedError where
  | timeout
  | computation

/-- The nested GED cache `{h_i: {h_j: d(G_i, G_j)}}`, as a total nested
map (the write `GED_table[h_G][h_H] = v` presumes the outer entry's inner
dict exists, i.e. a defaultdict-style table). -/
def GedTable : Type := String → String → Option ℝ

/-- Writing one value under the `[h_G][h_H]` orientation only. -/
def GedTable.update (T : GedTable) (a b : String) (v : ℝ) : GedTable :=
  fun x y => if x = a ∧ y = b then some v else T x y

/-- `graphlet_table[h]['graph']`: the representative graph of a bucket.
Only count-mode buckets carry `'graph'` (on a missing bucket or an
append-mode bucket the Python raises `KeyError`; the claims only concern
existing count-mode buckets, and we return the empty graph there). -/
def bucketGraph : Option Bucket → Graph
  | some (.cnt g _) => g
  | _ => Graph.empty

/-- The scalar a fresh computation produces from the oracle distance,
per the `similarity` / `normed` flags (lines 226-237). -/
def freshValue (expFn : ℝ → ℝ) (normed : Bool) (beta : ℝ) (similarity : Bool)
    (distance : ℝ) : ℝ :=
  if similarity then expFn (-beta * distance)
  else if normed then 1 - expFn (-beta * distance)
  else distance

/-- `GED_hashtable_hashed` (lines 192-238).  State-passing form: returns
the cache after the call, the outcome (a scalar, or the propagated oracle
error — the source has no handler around `ged`), and how many times the
oracle was invoked.  Lookup tries `GED_table[h_G][h_H]`, then
`GED_table[h_H][h_G]`; a fresh value is cached only under the
`[h_G][h_H]` orientation.  `np.exp` is the parameter `expFn`; `max_edges`
is accepted and unused exactly as in the source. -/
def GED_hashtable_hashed (expFn : ℝ → ℝ)
    (oracle : Graph → Graph → Nat → Except GedError ℝ)
    (h_G h_H : String) (GED_table : GedTable) (graphlet_table : Table)
    (normed : Bool) (max_edges : Nat) (beta : ℝ) (timeout : Nat) (similarity : Bool) :
    GedTable × Except GedError ℝ × Nat :=
  match GED_table h_G h_H with
  | some v => (GED_table, .ok v, 0)
  | none =>
    match GED_table h_H h_G with
    | some v => (GED_table, .ok v, 0)
    | none =>
      match oracle (bucketGraph (graphlet_table h_G)) (bucketGraph (graphlet_table h_H))
          timeout with
      | .error e => (GED_table, .error e, 1)
      | .ok distance =>
        (GED_table.update h_G h_H (freshValue expFn normed beta similarity distance),
          .ok (freshValue expFn normed beta similarity distance), 1)

/-- The freshly written cell reads back. -/
theorem GedTable.update_self (T : GedTable) (a b : String) (v : ℝ) :
    GedTable.update T a b v a b = some v := by
  unfold GedTable.update
  rw [if_pos ⟨rfl, rfl⟩]

/-- Every other cell is untouched by a write. -/
theorem GedTable.update_other (T : GedTable) (a b : String) (v : ℝ)
    (x y : String) (h : ¬(x = a ∧ y = b)) :
    GedTable.update T a b v x y = T x y := by
  unfold GedTable.update
  rw [if_neg h]

/-- A call on a fresh pair with a successful oracle: compute, cache under
`[h_G][h_H]`, one oracle invocation. -/
theorem GED_fresh (expFn : ℝ → ℝ) (oracle : Graph → Graph → Nat → Except GedError ℝ)
    (a b : String) (T : GedTable) (gt : Table)
    (normed : Bool) (max_edges : Nat) (beta : ℝ) (timeout : Nat) (similarity : Bool)
    (d : ℝ)
    (h1 : T a b = none) (h2 : T b a = none)
    (hor : oracle (bucketGraph (gt a)) (bucketGraph (gt b)) timeout = .ok d) :
    GED_hashtable_hashed expFn oracle a b T gt normed max_edges beta timeout similarity
      = (GedTable.update T a b (freshValue expFn normed beta similarity d),
          .ok (freshValue expFn normed beta similarity d), 1) := by
  unfold GED_hashtable_hashed
  rw [h1, h2, hor]

/-- A call whose pair is cached in the first orientation returns the
cached value, touches nothing, and never consults the oracle. -/
theorem GED_hit_first (expFn : ℝ → ℝ) (oracle : Graph → Graph → Nat → Except GedError ℝ)
    (a b : String) (T : GedTable) (gt : Table)
    (normed : Bool) (max_edges : Nat) (beta : ℝ) (timeout : Nat) (similarity : Bool)
    (v : ℝ) (h : T a b = some v) :
    GED_hashtable_hashed expFn oracle a b T gt normed max_edges beta timeout similarity
      = (T, .ok v, 0) := by
  unfold GED_hashtable_hashed
  rw [h]

/-- A call whose pair is cached only in the opposite orientation also
returns the cached value with no oracle invocation. -/
theorem GED_hit_second (expFn : ℝ → ℝ) (oracle : Graph → Graph → Nat → Except GedError ℝ)
    (a b : String) (T : GedTable) (gt : Table)
    (normed : Bool) (max_edges : Nat) (beta : ℝ) (timeout : Nat) (similarity : Bool)
    (v : ℝ) (h1 : T a b = none) (h : T b a = some v) :
    GED_hashtable_hashed expFn oracle a b T gt normed max_edges beta timeout similarity
      = (T, .ok v, 0) := by
  unfold GED_hashtable_hashed
  rw [h1, h]

/-- C4: after `GED_hashtable_hashed(a, b, ...)` computes a fresh value for
a pair of distinct digests with existing count-mode buckets, the value
sits only under `GED_table[a][b]` (not under `[b][a]`, and no other cell
changed), and every subsequent call — in either orientation, with any
oracle and flag settings — returns that identical cached value with zero
oracle invocations, because lookup checks both orientations first. -/
theorem C4_ged_cache_store_once_lookup_both (expFn : ℝ → ℝ)
    (oracle : Graph → Graph → Nat → Except GedError ℝ)
    (a b : String) (T : GedTable) (gt : Table)
    (normed : Bool) (max_edges : Nat) (beta : ℝ) (timeout : Nat) (similarity : Bool)
    (d : ℝ)
    (hab : a ≠ b)
    (hbA : ∃ g c, gt a = some (.cnt g c)) (hbB : ∃ g c, gt b = some (.cnt g c))
    (h1 : T a b = none) (h2 : T b a = none)
    (hor : oracle (bucketGraph (gt a)) (bucketGraph (gt b)) timeout = .ok d) :
    GED_hashtable_hashed expFn oracle a b T gt normed max_edges beta timeout similarity
      = (GedTable.update T a b (freshValue expFn normed beta similarity d),
          .ok (freshValue expFn normed beta similarity d), 1) ∧
    GedTable.update T a b (freshValue expFn normed beta similarity d) a b
      = some (freshValue expFn normed beta similarity d) ∧
    GedTable.update T a b (freshValue expFn normed beta similarity d) b a = none ∧
    (∀ x y, ¬(x = a ∧ y = b) →
      GedTable.update T a b (freshValue expFn normed beta similarity d) x y = T x y) ∧
    (∀ (oracle' : Graph → Graph → Nat → Except GedError ℝ)
        (normed' : Bool) (max_edges' : Nat) (beta' : ℝ) (timeout' : Nat) (similarity' : Bool),
      GED_hashtable_hashed expFn oracle' b a
          (GedTable.update T a b (freshValue expFn normed beta similarity d)) gt
          normed' max_edges' beta' timeout' similarity'
        = (GedTable.update T a b (freshValue expFn normed beta similarity d),
            .ok (freshValue expFn normed beta similarity d), 0)) ∧
    (∀ (oracle' : Graph → Graph → Nat → Except GedError ℝ)
        (normed' : Bool) (max_edges' : Nat) (beta' : ℝ) (timeout' : Nat) (similarity' : Bool),
      GED_hashtable_hashed expFn oracle' a b
          (GedTable.update T a b (freshValue expFn normed beta similarity d)) gt
          normed' max_edges' beta' timeout' similarity'
        = (GedTable.update T a b (freshValue expFn normed beta similarity d),
            .ok (freshValue expFn normed beta similarity d), 0)) := by
  have hba_none : GedTable.update T a b (freshValue expFn normed beta similarity d) b a
      = none := by
    rw [GedTable.update_other T a b _ b a (fun hh => hab hh.1.symm)]
    exact h2
  refine ⟨GED_fresh expFn oracle a b T gt normed max_edges beta timeout similarity d h1 h2 hor,
    GedTable.update_self T a b _, hba_none, fun x y h => GedTable.update_other T a b _ x y h,
    fun oracle' normed' max_edges' beta' timeout' similarity' => ?_,
    fun oracle' normed' max_edges' beta' timeout' similarity' =>
      GED_hit_first expFn oracle' a b _ gt normed' max_edges' beta' timeout' similarity' _
        (GedTable.update_self T a b _)⟩
  exact GED_hit_second expFn oracle' b a _ gt normed' max_edges' beta' timeout' similarity' _
    hba_none (GedTable.update_self T a b _)

/-- Witness for C4: digests `"h1"`, `"h2"`, an empty cache, one-element
count buckets, and an oracle returning distance 1. -/
theorem C4_witness :
    GED_hashtable_hashed id (fun _ _ _ => .ok 1) "h1" "h2" (fun _ _ => none)
        (fun _ => some (.cnt Graph.empty 1)) false 7 (1/2) 60 false
      = (GedTable.update (fun _ _ => none) "h1" "h2" (freshValue id false (1/2) false 1),
          .ok (freshValue id false (1/2) false 1), 1) ∧
    GedTable.update (fun _ _ => none) "h1" "h2" (freshValue id false (1/2) false 1) "h1" "h2"
      = some (freshValue id false (1/2) false 1) ∧
    GedTable.update (fun _ _ => none) "h1" "h2" (freshValue id false (1/2) false 1) "h2" "h1"
      = none := by
  have h := C4_ged_cache_store_once_lookup_both id (fun _ _ _ => .ok 1) "h1" "h2"
    (fun _ _ => none) (fun _ => some (.cnt Graph.empty 1)) false 7 (1/2) 60 false 1
    (by decide) ⟨Graph.empty, 1, rfl⟩ ⟨Graph.empty, 1, rfl⟩ rfl rfl rfl
  exact ⟨h.1, h.2.1, h.2.2.1⟩

/-- C5: if the distance oracle fails (timeout or computation error) on a
fresh pair, `GED_hashtable_hashed` propagates the failure as an error —
never as an `.ok` distance — and the cache is returned exactly as it was:
nothing is written under either orientation. -/
theorem C5_oracle_failure_not_cached (expFn : ℝ → ℝ)
    (oracle : Graph → Graph → Nat → Except GedError ℝ)
    (a b : String) (T : GedTable) (gt : Table)
    (normed : Bool) (max_edges : Nat) (beta : ℝ) (timeout : Nat) (similarity : Bool)
    (e : GedError)
    (h1 : T a b = none) (h2 : T b a = none)
    (hor : oracle (bucketGraph (gt a)) (bucketGraph (gt b)) timeout = .error e) :
    GED_hashtable_hashed expFn oracle a b T gt normed max_edges beta timeout similarity
      = (T, .error e, 1) ∧
    (∀ x : ℝ, (Except.error e : Except GedError ℝ) ≠ .ok x) := by
  constructor
  · unfold GED_hashtable_hashed
    rw [h1, h2, hor]
  · intro x hx
    cases hx

/-- Witness for C5: an oracle that times out on an empty cache. -/
theorem C5_witness :
    GED_hashtable_hashed id (fun _ _ _ => .error .timeout) "h1" "h2" (fun _ _ => none)
        (fun _ => some (.cnt Graph.empty 1)) true 7 (1/2) 60 false
      = ((fun _ _ => none), .error .timeout, 1) ∧
    (∀ x : ℝ, (Except.error GedError.timeout : Except GedError ℝ) ≠ .ok x) :=
  C5_oracle_failure_not_cached id (fun _ _ _ => .error .timeout) "h1" "h2" (fun _ _ => none)
    (fun _ => some (.cnt Graph.empty 1)) true 7 (1/2) 60 false .timeout rfl rfl rfl

/-- C9: a fresh computation from a non-negative oracle distance `d` with
`beta > 0`, instantiated at the real exponential: with `similarity=True`
the returned value is `exp(-beta*d)`, which lies in `(0, 1]` and equals 1
exactly when `d = 0`; with `similarity=False, normed=True` the returned
value is `1 - exp(-beta*d)`, which lies in `[0, 1)` and equals 0 exactly
when `d = 0`. -/
theorem C9_similarity_and_normed_bounds
    (oracle : Graph → Graph → Nat → Except GedError ℝ)
    (a b : String) (T : GedTable) (gt : Table)
    (max_edges : Nat) (beta : ℝ) (timeout : Nat) (d : ℝ)
    (h1 : T a b = none) (h2 : T b a = none)
    (hor : oracle (bucketGraph (gt a)) (bucketGraph (gt b)) timeout = .ok d)
    (hd : 0 ≤ d) (hbeta : 0 < beta) :
    (∀ normed : Bool,
      (GED_hashtable_hashed Real.exp oracle a b T gt normed max_edges beta timeout true).2.1
        = .ok (Real.exp (-beta * d))) ∧
    0 < Real.exp (-beta * d) ∧
    Real.exp (-beta * d) ≤ 1 ∧
    (Real.exp (-beta * d) = 1 ↔ d = 0) ∧
    (GED_hashtable_hashed Real.exp oracle a b T gt true max_edges beta timeout false).2.1
      = .ok (1 - Real.exp (-beta * d)) ∧
    0 ≤ 1 - Real.exp (-beta * d) ∧
    1 - Real.exp (-beta * d) < 1 ∧
    (1 - Real.exp (-beta * d) = 0 ↔ d = 0) := by
  have harg : -beta * d ≤ 0 := by
    have := mul_nonneg hbeta.le hd
    nlinarith
  have hexp_le : Real.exp (-beta * d) ≤ 1 := Real.exp_le_one_iff.2 harg
  have hexp_one : Real.exp (-beta * d) = 1 ↔ d = 0 := by
    rw [Real.exp_eq_one_iff]
    constructor
    · intro h
      rcases mul_eq_zero.1 h with hb | hd'
      · exact absurd (neg_eq_zero.1 hb) (ne_of_gt hbeta)
      · exact hd'
    · intro h
      rw [h, mul_zero]
  refine ⟨?_, Real.exp_pos _, hexp_le, hexp_one, ?_, ?_, ?_, ?_⟩
  · intro normed
    rw [GED_fresh Real.exp oracle a b T gt normed max_edges beta timeout true d h1 h2 hor]
    rfl
  · rw [GED_fresh Real.exp oracle a b T gt true max_edges beta timeout false d h1 h2 hor]
    rfl
  · exact sub_nonneg.2 hexp_le
  · exact sub_lt_self 1 (Real.exp_pos _)
  · rw [sub_eq_zero, eq_comm]
    exact hexp_one

/-- Witness for C9: distance 0, `beta = 1`. -/
theorem C9_witness :
    (∀ normed : Bool,
      (GED_hashtable_hashed Real.exp (fun _ _ _ => .ok 0) "h1" "h2" (fun _ _ => none)
          (fun _ => some (.cnt Graph.empty 1)) normed 7 1 60 true).2.1
        = .ok (Real.exp (-1 * 0))) ∧
    0 < Real.exp (-1 * 0) ∧
    Real.exp (-1 * 0) ≤ 1 ∧
    (Real.exp (-1 * 0) = 1 ↔ (0 : ℝ) = 0) ∧
    (GED_hashtable_hashed Real.exp (fun _ _ _ => .ok 0) "h1" "h2" (fun _ _ => none)
        (fun _ => some (.cnt Graph.empty 1)) true 7 1 60 false).2.1
      = .ok (1 - Real.exp (-1 * 0)) ∧
    0 ≤ 1 - Real.exp (-1 * 0) ∧
    1 - Real.exp (-1 * 0) < 1 ∧
    (1 - Real.exp (-1 * 0) = 0 ↔ (0 : ℝ) = 0) :=
  C9_similarity_and_normed_bounds (fun _ _ _ => .ok 0) "h1" "h2" (fun _ _ => none)
    (fun _ => some (.cnt Graph.empty 1)) 7 1 60 0 rfl rfl rfl (le_refl 0) one_pos

/-- C10: the scalar cached for a pair is whatever the first call computed
under its own flags.  After a first call with `similarity=True` cached
`exp(-beta*d)`, every later call for the pair — either orientation, any
oracle, any `beta'`, and in particular `similarity=False, normed=True` —
returns that cached similarity unchanged (not the normalized distance
`1 - exp(-beta*d)` its own flags would produce), with no oracle call. -/
theorem C10_cached_value_ignores_later_flags
    (oracle : Graph → Graph → Nat → Except GedError ℝ)
    (a b : String) (T : GedTable) (gt : Table)
    (normed : Bool) (max_edges : Nat) (beta : ℝ) (timeout : Nat) (d : ℝ)
    (hab : a ≠ b)
    (h1 : T a b = none) (h2 : T b a = none)
    (hor : oracle (bucketGraph (gt a)) (bucketGraph (gt b)) timeout = .ok d) :
    (GED_hashtable_hashed Real.exp oracle a b T gt normed max_edges beta timeout true).2.1
      = .ok (Real.exp (-beta * d)) ∧
    (∀ (oracle' : Graph → Graph → Nat → Except GedError ℝ)
        (normed' : Bool) (max_edges' : Nat) (beta' : ℝ) (timeout' : Nat) (similarity' : Bool),
      GED_hashtable_hashed Real.exp oracle' b a
          (GED_hashtable_hashed Real.exp oracle a b T gt normed max_edges beta timeout true).1
          gt normed' max_edges' beta' timeout' similarity'
        = ((GED_hashtable_hashed Real.exp oracle a b T gt normed max_edges beta timeout true).1,
            .ok (Real.exp (-beta * d)), 0)) ∧
    (∀ (oracle' : Graph → Graph → Nat → Except GedError ℝ)
        (normed' : Bool) (max_edges' : Nat) (beta' : ℝ) (timeout' : Nat) (similarity' : Bool),
      GED_hashtable_hashed Real.exp oracle' a b
          (GED_hashtable_hashed Real.exp oracle a b T gt normed max_edges beta timeout true).1
          gt normed' max_edges' beta' timeout' similarity'
        = ((GED_hashtable_hashed Real.exp oracle a b T gt normed max_edges beta timeout true).1,
            .ok (Real.exp (-beta * d)), 0)) := by
  have hfresh := GED_fresh Real.exp oracle a b T gt normed max_edges beta timeout true d h1 h2 hor
  have hv : freshValue Real.exp normed beta true d = Real.exp (-beta * d) := rfl
  have hself : (GED_hashtable_hashed Real.exp oracle a b T gt normed max_edges beta
      timeout true).1 a b = some (Real.exp (-beta * d)) := by
    rw [hfresh, hv]
    exact GedTable.update_self T a b _
  have hba : (GED_hashtable_hashed Real.exp oracle a b T gt normed max_edges beta
      timeout true).1 b a = none := by
    rw [hfresh]
    show GedTable.update T a b (freshValue Real.exp normed beta true d) b a = none
    rw [GedTable.update_other T a b _ b a (fun hh => hab hh.1.symm)]
    exact h2
  refine ⟨by rw [hfresh, hv], fun oracle' normed' max_edges' beta' timeout' similarity' => ?_,
    fun oracle' normed' max_edges' beta' timeout' similarity' =>
      GED_hit_first Real.exp oracle' a b _ gt normed' max_edges' beta' timeout' similarity' _
        hself⟩
  exact GED_hit_second Real.exp oracle' b a _ gt normed' max_edges' beta' timeout' similarity' _
    hba hself

/-- Witness for C10: first call with `similarity=True` on distance 1 and
`beta = 1`; the later mismatched-flag calls are drawn from the theorem at
`normed'=True, similarity'=False`. -/
theorem C10_witness :
    (GED_hashtable_hashed Real.exp (fun _ _ _ => .ok 1) "h1" "h2" (fun _ _ => none)
        (fun _ => some (.cnt Graph.empty 1)) false 7 1 60 true).2.1
      = .ok (Real.exp (-1 * 1)) ∧
    GED_hashtable_hashed Real.exp (fun _ _ _ => .ok 1) "h2" "h1"
        (GED_hashtable_hashed Real.exp (fun _ _ _ => .ok 1) "h1" "h2" (fun _ _ => none)
          (fun _ => some (.cnt Graph.empty 1)) false 7 1 60 true).1
        (fun _ => some (.cnt Graph.empty 1)) true 7 1 60 false
      = ((GED_hashtable_hashed Real.exp (fun _ _ _ => .ok 1) "h1" "h2" (fun _ _ => none)
          (fun _ => some (.cnt Graph.empty 1)) false 7 1 60 true).1,
          .ok (Real.exp (-1 * 1)), 0) := by
  have h := C10_cached_value_ignores_later_flags (fun _ _ _ => .ok 1) "h1" "h2"
    (fun _ _ => none) (fun _ => some (.cnt Graph.empty 1)) false 7 1 60 1
    (by decide) rfl rfl rfl
  exact ⟨h.1, h.2.1 (fun _ _ _ => .ok 1) true 7 1 60 false⟩

/-- Witness for C3: a one-graph corpus with two isolated nodes and a
constant digest map — the bucket exists, and occupancy grows monotonically
along a concrete insertion run. -/
theorem C3_witness :
    (build_hash_table (fun _ => "h") false 1
        [⟨[1, 2], fun _ => "", fun _ _ => none⟩] "h").isSome ∧
    sizeAt ([singleNodeGraph].foldl (tableInsert (fun _ => "h") false) emptyTable) "h"
      ≤ sizeAt (([singleNodeGraph] ++ [singleNodeGraph]).foldl
          (tableInsert (fun _ => "h") false) emptyTable) "h" := by
  have h := C3_table_accumulation (fun _ => "h") 1 [⟨[1, 2], fun _ => "", fun _ _ => none⟩] "h"
  exact ⟨(h.2.2.1 false).2 (by decide), h.2.2.2 false [singleNodeGraph] [singleNodeGraph]⟩
